import Mathlib

/-!
Verification of the osmocom-analog protocol core against its specification.

Shallow embedding of the relevant C sources:
  * `src/cnetz/cnetz.c`  — C-Netz channel/frequency mapping, transceiver creation
    checks, transaction handling, slot-clock correction, telegram scheduling;
  * `src/cnetz/dsp.c`    — the block scheduler (`fsk_telegramm`);
  * `src/pocsag/frame.c` — POCSAG codeword CRC/parity, encoding and reception;
  * `src/r2000/r2000.c`  — Radiocom-2000 supervisory digit encoding/decoding.

Machine integers are modelled as `Nat` with explicit reductions `% 2^w` where the
C code can overflow; C `double` values that carry exact protocol quantities
(frequencies in MHz, offsets in bits) are modelled as `Rat`.
-/

namespace Cnetz

/-- Embeds `cnetz_kanal2freq` (src/cnetz/cnetz.c:44-56).  Frequencies are in MHz,
kept exactly as rationals: `freq = 465.750`, minus `(kanal+1)/2 * 0.010` (real
division) for odd channels, minus `kanal/2 * 0.0125` for even ones; `unterband`
subtracts another 10 MHz. -/
def cnetz_kanal2freq (kanal : ℕ) (unterband : Bool) : ℚ :=
  let freq : ℚ := 465750 / 1000
  let freq : ℚ :=
    if kanal &&& 1 ≠ 0 then freq - ((kanal : ℚ) + 1) / 2 * (10 / 1000)
    else freq - (kanal : ℚ) / 2 * (125 / 10000)
  if unterband then freq - 10 else freq

/-- C8: for every channel number `k`, the base-station (downlink) frequency is
`465.750 MHz − (k+1)/2 · 10 kHz` for odd `k` (with `(k+1)/2` the integer
quotient) and `465.750 MHz − k/2 · 12.5 kHz` for even `k`, and the
mobile-station (uplink) frequency is exactly 10 MHz below the downlink. -/
theorem kanal2freq_spec (k : ℕ) :
    (k % 2 = 1 →
      cnetz_kanal2freq k false = 465750 / 1000 - (((k + 1) / 2 : ℕ) : ℚ) * (10 / 1000)) ∧
    (k % 2 = 0 →
      cnetz_kanal2freq k false = 465750 / 1000 - ((k / 2 : ℕ) : ℚ) * (125 / 10000)) ∧
    cnetz_kanal2freq k true = cnetz_kanal2freq k false - 10 := by
  refine ⟨fun hodd => ?_, fun heven => ?_, ?_⟩
  · have h1 : k &&& 1 = 1 := by simpa [Nat.and_one_is_mod] using hodd
    have hk : ((k + 1) / 2 : ℕ) * 2 = k + 1 := by omega
    have h2 : (((k + 1) / 2 : ℕ) : ℚ) * 2 = (k : ℚ) + 1 := by exact_mod_cast hk
    simp only [cnetz_kanal2freq, h1]
    norm_num
    rw [← h2]; ring
  · have h1 : k &&& 1 = 0 := by simpa [Nat.and_one_is_mod] using heven
    have hk : (k / 2 : ℕ) * 2 = k := by omega
    have h2 : ((k / 2 : ℕ) : ℚ) * 2 = (k : ℚ) := by exact_mod_cast hk
    simp only [cnetz_kanal2freq, h1]
    norm_num
    rw [← h2]; ring
  · simp [cnetz_kanal2freq]

/-- C8 witness: channel 131 (the organisation channel, odd) and channel 100. -/
theorem kanal2freq_spec_witness :
    (131 % 2 = 1 ∧
      cnetz_kanal2freq 131 false = 465750 / 1000 - (((131 + 1) / 2 : ℕ) : ℚ) * (10 / 1000)) ∧
    (100 % 2 = 0 ∧
      cnetz_kanal2freq 100 false = 465750 / 1000 - ((100 / 2 : ℕ) : ℚ) * (125 / 10000)) :=
  ⟨⟨by norm_num, (kanal2freq_spec 131).1 (by norm_num)⟩,
   ⟨by norm_num, (kanal2freq_spec 100).2.1 (by norm_num)⟩⟩

/-- Embeds the channel-number validation at the top of `cnetz_create`
(src/cnetz/cnetz.c:94-101): the function returns `-EINVAL` iff one of the two
`if` conditions holds.  The C conditions are
`(kanal & 1) && kanal < 1 && kanal > 947` and
`!(kanal & 1) && kanal < 2 && kanal > 758` (conjunctions, as written). -/
def cnetz_create_kanal_rejected (kanal : ℤ) : Prop :=
  (kanal % 2 ≠ 0 ∧ kanal < 1 ∧ kanal > 947) ∨
  (kanal % 2 = 0 ∧ kanal < 2 ∧ kanal > 758)

instance (kanal : ℤ) : Decidable (cnetz_create_kanal_rejected kanal) := by
  unfold cnetz_create_kanal_rejected; infer_instance

/-- C2 (code bug): the validation in `cnetz_create` never rejects any channel
number, because both guard conditions conjoin `kanal < low` with
`kanal > high` and are therefore unsatisfiable.  In particular channel 949 —
odd and outside the valid range `1..947` — is accepted, contradicting the
specified behaviour of refusing invalid channels with `-EINVAL`. -/
theorem cnetz_create_never_rejects :
    (∀ kanal : ℤ, ¬ cnetz_create_kanal_rejected kanal) ∧
    (¬ cnetz_create_kanal_rejected 949 ∧ 949 % 2 = 1 ∧ ¬ (1 ≤ (949 : ℤ) ∧ 949 ≤ 947)) := by
  constructor
  · intro kanal h
    rcases h with ⟨_, h1, h2⟩ | ⟨_, h1, h2⟩ <;> omega
  · refine ⟨?_, by norm_num, by omega⟩
    intro h
    rcases h with ⟨_, h1, h2⟩ | ⟨_, h1, h2⟩ <;> omega

end Cnetz

namespace R2000

/-- Embeds `r2000_encode_super` (src/r2000/r2000.c:365-384): the 3-bit `nconv`
and the 4 lowest bits of `relais` are permuted LSB-first into a 7-bit
supervisory digit, which is returned XORed with `0x7f`. -/
def r2000_encode_super (nconv relais : ℕ) : ℕ :=
  let relais := relais &&& 0xf
  let super :=
    ((nconv <<< 2) &&& 0x04) |||
    (nconv &&& 0x02) |||
    ((nconv >>> 2) &&& 0x01) |||
    ((relais <<< 6) &&& 0x40) |||
    ((relais <<< 4) &&& 0x20) |||
    ((relais <<< 2) &&& 0x10) |||
    (relais &&& 0x08)
  super ^^^ 0x7f

/-- Embeds the `nconv` extraction of `r2000_receive_super`
(src/r2000/r2000.c:1315-1317), applied to the un-inverted supervisory digit. -/
def r2000_receive_super_nconv (super : ℕ) : ℕ :=
  ((super >>> 2) &&& 0x01) ||| (super &&& 0x02) ||| ((super <<< 2) &&& 0x04)

/-- Embeds the `relais` extraction of `r2000_receive_super`
(src/r2000/r2000.c:1318-1321). -/
def r2000_receive_super_relais (super : ℕ) : ℕ :=
  ((super >>> 6) &&& 0x01) ||| ((super >>> 4) &&& 0x02) |||
  ((super >>> 2) &&& 0x04) ||| (super &&& 0x08)

/-- C10: decoding the supervisory digit produced by `r2000_encode_super`
(after undoing the final XOR with `0x7f`) recovers `nconv` and the 4 lowest
bits of `relais`; conversely, re-encoding the decoder's output restores any
7-bit digit, so the two bit permutations are mutual inverses. -/
theorem receive_super_encode_super (nconv relais : ℕ) (hn : nconv < 8) :
    (r2000_receive_super_nconv (r2000_encode_super nconv relais ^^^ 0x7f) = nconv ∧
     r2000_receive_super_relais (r2000_encode_super nconv relais ^^^ 0x7f) = relais &&& 0xf) ∧
    (∀ s < 128, r2000_encode_super (r2000_receive_super_nconv s)
        (r2000_receive_super_relais s) ^^^ 0x7f = s) := by
  constructor
  · have hr : relais &&& 0xf < 16 :=
      Nat.lt_succ_of_le (Nat.and_le_right)
    have hmask : (relais &&& 0xf) &&& 0xf = relais &&& 0xf := by
      rw [Nat.and_assoc, Nat.and_self]
    have henc : r2000_encode_super nconv relais =
        r2000_encode_super nconv (relais &&& 0xf) := by
      unfold r2000_encode_super
      rw [hmask]
    rw [henc]
    have key : ∀ n < 8, ∀ r < 16,
        r2000_receive_super_nconv (r2000_encode_super n r ^^^ 0x7f) = n ∧
        r2000_receive_super_relais (r2000_encode_super n r ^^^ 0x7f) = r &&& 0xf := by
      decide
    exact (key nconv hn (relais &&& 0xf) hr).imp id (fun h => h.trans hmask)
  · decide

/-- C10 witness: `nconv = 5`, `relais = 0x2b` (low bits `0xb`). -/
theorem receive_super_encode_super_witness :
    (5 : ℕ) < 8 ∧
    ((r2000_receive_super_nconv (r2000_encode_super 5 0x2b ^^^ 0x7f) = 5 ∧
      r2000_receive_super_relais (r2000_encode_super 5 0x2b ^^^ 0x7f) = 0x2b &&& 0xf) ∧
     (∀ s < 128, r2000_encode_super (r2000_receive_super_nconv s)
        (r2000_receive_super_relais s) ^^^ 0x7f = s)) :=
  ⟨by norm_num, receive_super_encode_super 5 0x2b (by norm_num)⟩

end R2000

namespace Pocsag

/-- Sync codeword delimiting batches (src/pocsag/frame.c:34). -/
def CODEWORD_SYNC : ℕ := 0x7cd215d8

/-- Idle codeword (src/pocsag/frame.c:35). -/
def CODEWORD_IDLE : ℕ := 0x7a89c197

/-- Embeds `pocsag_crc` (src/pocsag/frame.c:76-90): the 21-bit input is shifted
up by 10 (truncated to `uint32_t` as in C), then reduced by 21 steps of
polynomial long division with the denominator starting at `0x76900000` and
shifting right each step; the low 10 bits are the CRC. -/
def pocsag_crc (word : ℕ) : ℕ :=
  ((List.range 21).foldl
    (fun p i =>
      (if (p.1 >>> (30 - i)) &&& 1 = 1 then p.1 ^^^ p.2 else p.1, p.2 >>> 1))
    ((word <<< 10) % 2 ^ 32, 0x76900000)).1 &&& 0x3ff

/-- Embeds `pocsag_parity` (src/pocsag/frame.c:92-101): folds the 32-bit word
onto itself by XOR-shifts and returns the low bit, i.e. the even-parity bit
over all 32 bits. -/
def pocsag_parity (word : ℕ) : ℕ :=
  let word := word ^^^ (word >>> 16)
  let word := word ^^^ (word >>> 8)
  let word := word ^^^ (word >>> 4)
  let word := word ^^^ (word >>> 2)
  let word := word ^^^ (word >>> 1)
  word &&& 1

/-- Embeds `encode_address` (src/pocsag/frame.c:134-149): the upper 18 bits of
the RIC, then the 2 function bits, then the 10-bit CRC over those 21 bits
(with the implicit 0 type bit), then the even-parity bit.  Shifts are
truncated to `uint32_t` as in C. -/
def encode_address (ric function : ℕ) : ℕ :=
  let word : ℕ := 0x0
  let word := ((word <<< 18) % 2 ^ 32) ||| (ric >>> 3)
  let word := ((word <<< 2) % 2 ^ 32) ||| function
  let word := ((word <<< 10) % 2 ^ 32) ||| pocsag_crc word
  let word := ((word <<< 1) % 2 ^ 32) ||| pocsag_parity word
  word

/-- Embeds the validity checks of `debug_word` (src/pocsag/frame.c:103-113):
a codeword is accepted iff `pocsag_crc` over its upper 21 bits equals its
10-bit CRC field and its overall parity is even; otherwise `-EINVAL`. -/
def debug_word_ok (word : ℕ) : Bool :=
  decide (pocsag_crc (word >>> 11) = (word >>> 1) &&& 0x3ff) &&
  decide (pocsag_parity word = 0)

theorem shiftRight_xor_distrib (a b k : ℕ) : (a ^^^ b) >>> k = a >>> k ^^^ b >>> k := by
  apply Nat.eq_of_testBit_eq
  intro i
  simp [Nat.testBit_shiftRight, Nat.testBit_xor]

theorem xor_fold_step (k a b : ℕ) :
    ((a ^^^ b) ^^^ (a ^^^ b) >>> k) = (a ^^^ a >>> k) ^^^ (b ^^^ b >>> k) := by
  rw [shiftRight_xor_distrib]
  rw [Nat.xor_assoc, Nat.xor_assoc]
  congr 1
  rw [← Nat.xor_assoc, ← Nat.xor_assoc]
  congr 1
  exact Nat.xor_comm _ _

/-- `pocsag_parity` is a homomorphism for XOR. -/
theorem pocsag_parity_xor (a b : ℕ) :
    pocsag_parity (a ^^^ b) = pocsag_parity a ^^^ pocsag_parity b := by
  simp only [pocsag_parity]
  rw [xor_fold_step 16 a b, xor_fold_step 8, xor_fold_step 4, xor_fold_step 2,
    xor_fold_step 1, Nat.and_xor_distrib_right]

theorem pocsag_parity_le_one (w : ℕ) : pocsag_parity w ≤ 1 := Nat.and_le_right

theorem pocsag_crc_le (w : ℕ) : pocsag_crc w ≤ 0x3ff := Nat.and_le_right

theorem pocsag_parity_two_pow : ∀ j < 32, pocsag_parity (2 ^ j) = 1 := by decide

/-- XOR with a value below `2^i` acts as addition on multiples of `2^i`. -/
theorem xor_low_eq_add {b i : ℕ} (hb : b < 2 ^ i) (a : ℕ) :
    2 ^ i * a ^^^ b = 2 ^ i * a + b := by
  rw [Nat.mul_add_lt_is_or hb a]
  apply Nat.eq_of_testBit_eq
  intro t
  simp only [Nat.testBit_xor, Nat.testBit_or]
  rcases Nat.lt_or_ge t i with h | h
  · have hz : (2 ^ i * a).testBit t = false := by
      rw [Nat.mul_comm, ← Nat.shiftLeft_eq]
      simp [Nat.testBit_shiftLeft, Nat.not_le.mpr h]
    simp [hz]
  · have hz : b.testBit t = false :=
      Nat.testBit_lt_two_pow (lt_of_lt_of_le hb (Nat.pow_le_pow_right (by norm_num) h))
    simp [hz]

/-- Shifting up by powers of two preserves the 32-bit parity as long as no bit
is pushed beyond bit 31. -/
theorem pocsag_parity_pow_mul (x : ℕ) :
    ∀ j, 2 ^ j * x < 2 ^ 32 → pocsag_parity (2 ^ j * x) = pocsag_parity x := by
  induction x using Nat.strong_induction_on with
  | _ x ih =>
    intro j hb
    rcases Nat.eq_zero_or_pos x with rfl | hpos
    · norm_num
    have hj : j < 32 := by
      have h1 : 2 ^ j ≤ 2 ^ j * x := Nat.le_mul_of_pos_right _ hpos
      have h2 : (2 : ℕ) ^ j < 2 ^ 32 := lt_of_le_of_lt h1 hb
      exact (Nat.pow_lt_pow_iff_right (by norm_num)).mp h2
    have hxle : x ≤ 2 ^ j * x :=
      Nat.le_mul_of_pos_left _ (Nat.pos_pow_of_pos _ (by norm_num))
    have hx32 : x < 2 ^ 32 := lt_of_le_of_lt hxle hb
    rcases Nat.mod_two_eq_zero_or_one x with he | ho
    · have hk : x = 2 * (x / 2) := by omega
      set k := x / 2 with hkdef
      have hklt : k < x := by omega
      have e1 : 2 ^ j * x = 2 ^ (j + 1) * k := by
        rw [pow_succ]; nth_rewrite 1 [hk]; ring
      have e2 : x = 2 ^ 1 * k := by rw [pow_one]; omega
      have hb1 : 2 ^ (j + 1) * k < 2 ^ 32 := by rw [← e1]; exact hb
      have hb2 : 2 ^ 1 * k < 2 ^ 32 := by rw [← e2]; exact hx32
      rw [e1, ih k hklt (j + 1) hb1]
      conv_rhs => rw [e2]
      rw [ih k hklt 1 hb2]
    · have hk : x = 2 * (x / 2) + 1 := by omega
      set k := x / 2 with hkdef
      have hklt : k < x := by omega
      have e1 : 2 ^ j * x = 2 ^ (j + 1) * k + 2 ^ j := by
        rw [pow_succ]; nth_rewrite 1 [hk]; ring
      have e2 : x = 2 ^ 1 * k + 1 := by rw [pow_one]; omega
      have hlt1 : (2 : ℕ) ^ j < 2 ^ (j + 1) := by
        have h := pow_succ 2 j
        have h2 : (0 : ℕ) < 2 ^ j := Nat.pos_pow_of_pos _ (by norm_num)
        omega
      have hb1 : 2 ^ (j + 1) * k < 2 ^ 32 := by omega
      have hb2 : 2 ^ 1 * k < 2 ^ 32 := by omega
      rw [e1, ← xor_low_eq_add hlt1, pocsag_parity_xor,
        ih k hklt (j + 1) hb1, pocsag_parity_two_pow j hj]
      conv_rhs => rw [e2]
      rw [← xor_low_eq_add (by norm_num), pocsag_parity_xor, ih k hklt 1 hb2]
      rfl

/-- Appending the parity bit makes the overall parity even. -/
theorem pocsag_parity_codeword {x : ℕ} (hx : x < 2 ^ 31) :
    pocsag_parity (2 * x + pocsag_parity x) = 0 := by
  have hp : pocsag_parity x ≤ 1 := pocsag_parity_le_one x
  have h2x : 2 * x = 2 ^ 1 * x := by ring
  interval_cases h : pocsag_parity x
  · rw [Nat.add_zero, h2x, pocsag_parity_pow_mul x 1 (by omega), h]
  · rw [h2x, ← xor_low_eq_add (by norm_num), pocsag_parity_xor,
      pocsag_parity_pow_mul x 1 (by omega), h]
    decide

/-- Closed form of `encode_address`: the 21-bit payload (18 RIC bits, 2
function bits, implicit 0 type bit), the 10-bit CRC and the parity bit,
concatenated by shifts. -/
theorem encode_address_eq (ric f : ℕ) (hric : ric < 2 ^ 21) (hf : f < 4) :
    encode_address ric f =
      2 ^ 1 * (2 ^ 10 * (2 ^ 2 * (ric >>> 3) + f) + pocsag_crc (2 ^ 2 * (ric >>> 3) + f)) +
        pocsag_parity
          (2 ^ 10 * (2 ^ 2 * (ric >>> 3) + f) + pocsag_crc (2 ^ 2 * (ric >>> 3) + f)) := by
  simp only [encode_address]
  have hA : ric >>> 3 < 2 ^ 18 := by
    rw [Nat.shiftRight_eq_div_pow]
    norm_num at hric ⊢
    omega
  have h0 : ((0 : ℕ) <<< 18) % 2 ^ 32 ||| (ric >>> 3) = ric >>> 3 := by norm_num
  rw [h0]
  set A := ric >>> 3 with hAdef
  have h1 : ((A <<< 2) % 2 ^ 32) ||| f = 2 ^ 2 * A + f := by
    rw [Nat.shiftLeft_eq, Nat.mod_eq_of_lt (by norm_num at hA ⊢; omega), Nat.mul_comm]
    exact (Nat.mul_add_lt_is_or hf A).symm
  rw [h1]
  have hw21 : 2 ^ 2 * A + f < 2 ^ 20 := by norm_num at hA ⊢; omega
  have hcrc : pocsag_crc (2 ^ 2 * A + f) ≤ 0x3ff := pocsag_crc_le _
  have h2 : (((2 ^ 2 * A + f) <<< 10) % 2 ^ 32) ||| pocsag_crc (2 ^ 2 * A + f)
      = 2 ^ 10 * (2 ^ 2 * A + f) + pocsag_crc (2 ^ 2 * A + f) := by
    rw [Nat.shiftLeft_eq, Nat.mod_eq_of_lt (by norm_num at hw21 ⊢; omega), Nat.mul_comm]
    exact (Nat.mul_add_lt_is_or (by norm_num at hcrc ⊢; omega) _).symm
  rw [h2]
  have hx : 2 ^ 10 * (2 ^ 2 * A + f) + pocsag_crc (2 ^ 2 * A + f) < 2 ^ 31 := by
    norm_num at hw21 hcrc ⊢; omega
  have hp : pocsag_parity (2 ^ 10 * (2 ^ 2 * A + f) + pocsag_crc (2 ^ 2 * A + f)) ≤ 1 :=
    pocsag_parity_le_one _
  rw [Nat.shiftLeft_eq, Nat.mod_eq_of_lt (by norm_num at hx ⊢; omega), Nat.mul_comm]
  exact (Nat.mul_add_lt_is_or (by omega) _).symm

/-- The encoded address codeword passes both checks of `debug_word`. -/
theorem encode_address_debug_ok (ric f : ℕ) (hric : ric < 2 ^ 21) (hf : f < 4) :
    debug_word_ok (encode_address ric f) = true := by
  have hA : ric >>> 3 < 2 ^ 18 := by
    rw [Nat.shiftRight_eq_div_pow]
    norm_num at hric ⊢
    omega
  set w21 := 2 ^ 2 * (ric >>> 3) + f with hw21def
  set crc := pocsag_crc w21 with hcrcdef
  set x := 2 ^ 10 * w21 + crc with hxdef
  set p := pocsag_parity x with hpdef
  have hE : encode_address ric f = 2 ^ 1 * x + p := encode_address_eq ric f hric hf
  have hw21lt : w21 < 2 ^ 20 := by norm_num at hA ⊢; omega
  have hcrclt : crc ≤ 0x3ff := pocsag_crc_le _
  have hxlt : x < 2 ^ 31 := by norm_num at hw21lt hcrclt ⊢; omega
  have hplt : p ≤ 1 := pocsag_parity_le_one _
  have h11 : (2 ^ 1 * x + p) >>> 11 = w21 := by
    rw [Nat.shiftRight_eq_div_pow]
    norm_num at hcrclt hplt hxdef ⊢
    omega
  have h01 : (2 ^ 1 * x + p) >>> 1 = x := by
    rw [Nat.shiftRight_eq_div_pow]
    norm_num at hplt ⊢
    omega
  have hand : x &&& 0x3ff = crc := by
    have e : (0x3ff : ℕ) = 2 ^ 10 - 1 := by norm_num
    rw [e, Nat.and_pow_two_sub_one_eq_mod]
    norm_num at hcrclt ⊢
    omega
  have hpar1 : pocsag_parity (2 * x + p) = 0 := by
    rw [hpdef]; exact pocsag_parity_codeword hxlt
  simp only [debug_word_ok, hE, h11, h01, hand]
  simp [← hcrcdef, hpar1]

/-- The encoded address codeword has even parity. -/
theorem encode_address_parity_zero (ric f : ℕ) (hric : ric < 2 ^ 21) (hf : f < 4) :
    pocsag_parity (encode_address ric f) = 0 := by
  have hA : ric >>> 3 < 2 ^ 18 := by
    rw [Nat.shiftRight_eq_div_pow]
    norm_num at hric ⊢
    omega
  have hw21lt : 2 ^ 2 * (ric >>> 3) + f < 2 ^ 20 := by norm_num at hA ⊢; omega
  have hcrclt : pocsag_crc (2 ^ 2 * (ric >>> 3) + f) ≤ 0x3ff := pocsag_crc_le _
  have hxlt : 2 ^ 10 * (2 ^ 2 * (ric >>> 3) + f) +
      pocsag_crc (2 ^ 2 * (ric >>> 3) + f) < 2 ^ 31 := by
    norm_num at hw21lt hcrclt ⊢
    omega
  rw [encode_address_eq ric f hric hf, pow_one]
  exact pocsag_parity_codeword hxlt

/-- The encoded address codeword fits in 31 bits, so its type bit (bit 31) is
0: it parses as an address word. -/
theorem encode_address_lt (ric f : ℕ) (hric : ric < 2 ^ 21) (hf : f < 4) :
    encode_address ric f < 2 ^ 31 := by
  have hA : ric >>> 3 < 2 ^ 18 := by
    rw [Nat.shiftRight_eq_div_pow]
    norm_num at hric ⊢
    omega
  have hw21lt : 2 ^ 2 * (ric >>> 3) + f < 2 ^ 20 := by norm_num at hA ⊢; omega
  have hcrclt : pocsag_crc (2 ^ 2 * (ric >>> 3) + f) ≤ 0x3ff := pocsag_crc_le _
  have hplt : pocsag_parity (2 ^ 10 * (2 ^ 2 * (ric >>> 3) + f) +
      pocsag_crc (2 ^ 2 * (ric >>> 3) + f)) ≤ 1 := pocsag_parity_le_one _
  rw [encode_address_eq ric f hric hf]
  norm_num at hw21lt hcrclt hplt ⊢
  omega

/-- C1: every POCSAG address codeword produced by the encoder passes the
decoder's CRC check (`pocsag_crc` over the upper 21 bits equals the 10-bit CRC
field) and its even-parity check, and flipping any single one of its 32 bits
makes at least one of the two checks fail (the parity check always fails). -/
theorem encode_address_valid_bitflip (ric f : ℕ) (hric : ric < 2 ^ 21) (hf : f < 4) :
    debug_word_ok (encode_address ric f) = true ∧
    ∀ i < 32, debug_word_ok (encode_address ric f ^^^ 1 <<< i) = false := by
  refine ⟨encode_address_debug_ok ric f hric hf, fun i hi => ?_⟩
  have hflip : pocsag_parity (encode_address ric f ^^^ 1 <<< i) = 1 := by
    have h2i : (1 : ℕ) <<< i = 2 ^ i := by rw [Nat.shiftLeft_eq, Nat.one_mul]
    rw [h2i, pocsag_parity_xor, encode_address_parity_zero ric f hric hf,
      pocsag_parity_two_pow i hi]
    decide
  simp [debug_word_ok, hflip]

/-- C1 witness: RIC 1234, function 1. -/
theorem encode_address_valid_bitflip_witness :
    ((1234 : ℕ) < 2 ^ 21 ∧ (1 : ℕ) < 4) ∧
    (debug_word_ok (encode_address 1234 1) = true ∧
     ∀ i < 32, debug_word_ok (encode_address 1234 1 ^^^ 1 <<< i) = false) :=
  ⟨⟨by norm_num, by norm_num⟩,
   encode_address_valid_bitflip 1234 1 (by norm_num) (by norm_num)⟩

end Pocsag

namespace Cnetz

/-- Result of the number validation in `call_out_setup`: either rejection with
`-CAUSE_INVALNUMBER` or the parsed subscriber triple. -/
inductive SetupResult where
  | invalnumber
  | ok (futln_nat futln_fuvst futln_rest : ℕ)
deriving DecidableEq

/-- C `atoi` on a string of decimal digits (the call sites have verified that
every character is a digit). -/
def atoiDigits (l : List Char) : ℕ :=
  l.foldl (fun a c => a * 10 + (c.toNat - 48)) 0

/-- Embeds the number validation of `call_out_setup`
(src/cnetz/cnetz.c:244-263): an 11-character string prefixed `0160` is
shortened to its last 7 characters; then the length must be 7, every character
a decimal digit, and the last 5 digits at most 65535; on success digits 1-2
are the national and exchange codes and digits 3-7 the rest number. -/
def call_out_setup_parse (dialing0 : List Char) : SetupResult :=
  let dialing :=
    if dialing0.length = 11 ∧ dialing0.take 4 = ['0', '1', '6', '0'] then dialing0.drop 4
    else dialing0
  if dialing.length ≠ 7 then .invalnumber
  else if dialing.any (fun c => decide (c < '0' ∨ '9' < c)) then .invalnumber
  else if atoiDigits (dialing.drop 2) > 65535 then .invalnumber
  else .ok ((dialing.getD 0 '0').toNat - 48) ((dialing.getD 1 '0').toNat - 48)
         (atoiDigits (dialing.drop 2))

/-- C7: `0160`-prefixed 11-character strings reduce to their last 7 characters;
any other length, a non-decimal character, or a rest number above 65535 is
rejected with the invalid-number cause; otherwise the call is accepted with
digit 1 as national code, digit 2 as exchange code, and digits 3-7 (≤ 65535)
as rest number. -/
theorem call_out_setup_parse_spec :
    (∀ l : List Char, l.length = 11 → l.take 4 = ['0', '1', '6', '0'] →
      call_out_setup_parse l = call_out_setup_parse (l.drop 4)) ∧
    (∀ l : List Char, ¬ (l.length = 11 ∧ l.take 4 = ['0', '1', '6', '0']) →
      l.length ≠ 7 → call_out_setup_parse l = .invalnumber) ∧
    (∀ l : List Char, l.length = 7 → (∃ c ∈ l, c < '0' ∨ '9' < c) →
      call_out_setup_parse l = .invalnumber) ∧
    (∀ l : List Char, l.length = 7 → (∀ c ∈ l, '0' ≤ c ∧ c ≤ '9') →
      65535 < atoiDigits (l.drop 2) → call_out_setup_parse l = .invalnumber) ∧
    (∀ l : List Char, l.length = 7 → (∀ c ∈ l, '0' ≤ c ∧ c ≤ '9') →
      atoiDigits (l.drop 2) ≤ 65535 →
      call_out_setup_parse l =
        .ok ((l.getD 0 '0').toNat - 48) ((l.getD 1 '0').toNat - 48)
          (atoiDigits (l.drop 2))) := by
  have hstrip : ∀ l : List Char, l.length = 7 →
      ¬ (l.length = 11 ∧ l.take 4 = ['0', '1', '6', '0']) := by
    intro l h7 ⟨h11, _⟩
    omega
  refine ⟨?_, ?_, ?_, ?_, ?_⟩
  · intro l h11 hpre
    have hd : (l.drop 4).length = 7 := by simp [List.length_drop, h11]
    rw [call_out_setup_parse, call_out_setup_parse]
    simp only [h11, hpre, and_self, if_true, hstrip _ hd, if_false]
  · intro l hno h7
    rw [call_out_setup_parse]
    simp only [hno, if_false, h7, ne_eq, not_false_iff, if_true]
  · intro l h7 hex
    rw [call_out_setup_parse]
    rw [if_neg (hstrip l h7)]
    simp [h7, hex]
  · intro l h7 hdig hbig
    have hnex : ¬ ∃ c ∈ l, c < '0' ∨ '9' < c := by
      rintro ⟨c, hc, hlt | hgt⟩
      · exact absurd (hdig c hc).1 (not_le.mpr hlt)
      · exact absurd (hdig c hc).2 (not_le.mpr hgt)
    rw [call_out_setup_parse]
    rw [if_neg (hstrip l h7)]
    simp [h7, hnex, hbig]
  · intro l h7 hdig hsmall
    have hnex : ¬ ∃ c ∈ l, c < '0' ∨ '9' < c := by
      rintro ⟨c, hc, hlt | hgt⟩
      · exact absurd (hdig c hc).1 (not_le.mpr hlt)
      · exact absurd (hdig c hc).2 (not_le.mpr hgt)
    rw [call_out_setup_parse]
    rw [if_neg (hstrip l h7)]
    simp [h7, hnex, Nat.not_lt.mpr hsmall]

/-- C7 witness: "2222002" is accepted as (2, 2, 22002); "0165535" is accepted
with rest 65535; "0165536" is rejected. -/
theorem call_out_setup_parse_spec_witness :
    (call_out_setup_parse "2222002".toList = .ok 2 2 22002 ∧
     call_out_setup_parse "0165535".toList = .ok 0 1 65535 ∧
     call_out_setup_parse "0165536".toList = .invalnumber) ∧
    ("2222002".toList.length = 7 ∧ atoiDigits ("2222002".toList.drop 2) ≤ 65535 ∧
     65535 < atoiDigits ("0165536".toList.drop 2)) := by
  refine ⟨⟨?_, ?_, ?_⟩, by decide, by decide, by decide⟩
  · have h := call_out_setup_parse_spec.2.2.2.2 "2222002".toList (by decide)
      (by decide) (by decide)
    simpa using h
  · have h := call_out_setup_parse_spec.2.2.2.2 "0165535".toList (by decide)
      (by decide) (by decide)
    simpa using h
  · exact call_out_setup_parse_spec.2.2.2.1 "0165536".toList (by decide)
      (by decide) (by decide)

end Cnetz

namespace Cnetz

/-- Bits of one 198-bit block.  `BLOCK_BITS` is 198 in src/cnetz/dsp.c:41; the
`BITS_PER_BLOCK` macro used by `cnetz_sync_frame` lives in a header not under
src/ and denotes the same block length. -/
def BITS_PER_BLOCK : ℚ := 198

/-- Modelled from the spec: `BITS_PER_SUPERFRAME` is defined in a header not
under src/; per §4.3 a super-frame is 32 time-slots × 2 sub-phases of one
198-bit block each, i.e. 12672 bits. -/
def BITS_PER_SUPERFRAME : ℚ := 198 * 2 * 32

/-- C truncation toward zero, as used by `fmod`. -/
def ctrunc (x : ℚ) : ℤ := if 0 ≤ x then ⌊x⌋ else -⌊-x⌋

/-- C `fmod` on exact rationals: remainder with the sign of the dividend. -/
def cfmod (x y : ℚ) : ℚ := x - (ctrunc (x / y) : ℚ) * y

/-- The folded offset computed by `cnetz_sync_frame`
(src/cnetz/cnetz.c:645-656): modulo the super-frame when the absolute block is
known (`block ≥ 0`), modulo one block otherwise, subtracting the modulus when
the result exceeds half of it. -/
def cnetz_sync_offset (sync : ℚ) (block : ℤ) : ℚ :=
  if block ≥ 0 then
    let offset := cfmod (sync - BITS_PER_BLOCK * (block : ℚ) + BITS_PER_SUPERFRAME)
      BITS_PER_SUPERFRAME
    if offset > BITS_PER_SUPERFRAME / 2 then offset - BITS_PER_SUPERFRAME else offset
  else
    let offset := cfmod sync BITS_PER_BLOCK
    if offset > BITS_PER_BLOCK / 2 then offset - BITS_PER_BLOCK else offset

/-- The correction handed to `fsk_correct_sync` by `cnetz_sync_frame`
(src/cnetz/cnetz.c:657-667): the full offset when out of the ±0.5-bit window,
half the offset otherwise. -/
def cnetz_sync_frame_corr (sync : ℚ) (block : ℤ) : ℚ :=
  let offset := cnetz_sync_offset sync block
  if offset < -(1/2) ∨ offset > 1/2 then offset else offset / 2

/-- C6: the correction applies the full folded offset exactly when its
magnitude strictly exceeds 0.5 bit and half of it otherwise; offsets of
exactly ±0.5 bit are pulled halfway, 0.500001 is pulled fully. -/
theorem sync_frame_correction_rule :
    (∀ (sync : ℚ) (block : ℤ),
      cnetz_sync_frame_corr sync block =
        if 1 / 2 < |cnetz_sync_offset sync block| then cnetz_sync_offset sync block
        else cnetz_sync_offset sync block / 2) ∧
    cnetz_sync_offset (1/2) (-1) = 1/2 ∧ cnetz_sync_frame_corr (1/2) (-1) = 1/4 ∧
    cnetz_sync_offset (-(1/2)) (-1) = -(1/2) ∧
    cnetz_sync_frame_corr (-(1/2)) (-1) = -(1/4) ∧
    cnetz_sync_frame_corr (500001/1000000) (-1) = 500001/1000000 := by
  have ho1 : cnetz_sync_offset (1/2) (-1) = 1/2 := by
    rw [cnetz_sync_offset]
    norm_num [cfmod, ctrunc, BITS_PER_BLOCK]
  have ho2 : cnetz_sync_offset (-(1/2)) (-1) = -(1/2) := by
    rw [cnetz_sync_offset]
    norm_num [cfmod, ctrunc, BITS_PER_BLOCK]
  have ho3 : cnetz_sync_offset (500001/1000000) (-1) = 500001/1000000 := by
    rw [cnetz_sync_offset]
    norm_num [cfmod, ctrunc, BITS_PER_BLOCK]
  refine ⟨fun sync block => ?main, ho1, ?c1, ho2, ?c2, ?c3⟩
  case c1 =>
    rw [cnetz_sync_frame_corr, ho1]
    norm_num
  case c2 =>
    rw [cnetz_sync_frame_corr, ho2]
    norm_num
  case c3 =>
    rw [cnetz_sync_frame_corr, ho3]
    norm_num
  case main =>
  rw [cnetz_sync_frame_corr]
  set o := cnetz_sync_offset sync block with ho
  rcases lt_or_le (1/2 : ℚ) |o| with h | h
  · rw [if_pos, if_pos h]
    rcases lt_abs.mp h with h' | h'
    · right; exact h'
    · left; linarith
  · rw [if_neg, if_neg (not_lt.mpr h)]
    have := abs_le.mp h
    rintro (h' | h') <;> linarith

end Cnetz

namespace Cnetz

/-- A C-Netz transaction: `ptr` models the node's identity (its address), the
other fields are the subscriber triple used by `create_transaction` to find
duplicates. -/
structure Transaction where
  ptr : ℕ
  futln_nat : ℕ
  futln_fuvst : ℕ
  futln_rest : ℕ
deriving DecidableEq

/-- Embeds the unlink step of `destroy_transaction`
(src/cnetz/cnetz.c:472-494): remove the (first) occurrence of the node from
the channel's list (the C code aborts when the node is not in the list). -/
def destroy_transaction : List Transaction → Transaction → List Transaction
  | [], _ => []
  | x :: xs, t => if x = t then xs else x :: destroy_transaction xs t

/-- Same-subscriber test used by `create_transaction` (src/cnetz/cnetz.c:429-431). -/
def sameSubscriber (t u : Transaction) : Bool :=
  u.futln_nat = t.futln_nat ∧ u.futln_fuvst = t.futln_fuvst ∧ u.futln_rest = t.futln_rest

/-- The duplicate-removal loop of `create_transaction`
(src/cnetz/cnetz.c:426-438): walk the list and destroy the first transaction
with the same subscriber triple. -/
def remove_first_dup : List Transaction → Transaction → List Transaction
  | [], _ => []
  | x :: xs, t => if sameSubscriber t x then xs else x :: remove_first_dup xs t

/-- Embeds the list effect of `create_transaction`
(src/cnetz/cnetz.c:422-469): destroy a pending duplicate, then attach the new
transaction at the end of the list "so first transaction is served first". -/
def create_transaction (l : List Transaction) (t : Transaction) : List Transaction :=
  remove_first_dup l t ++ [t]

/-- The second loop of `cnetz_flush_other_transactions`
(src/cnetz/cnetz.c:624-628): destroy the head of the list ("oldest first")
until the head is `trans`.  Returns (destroyed nodes in order, final list). -/
def flush_before : List Transaction → Transaction → List Transaction × List Transaction
  | [], _ => ([], [])
  | x :: xs, t =>
    if x = t then ([], x :: xs)
    else
      let p := flush_before xs t
      (x :: p.1, p.2)

/-- Embeds `cnetz_flush_other_transactions` (src/cnetz/cnetz.c:617-629).  The
first loop (`while (trans->next) destroy_transaction(trans);`) destroys
`trans` itself — the transaction being kept — and then dereferences the freed
node; it is modelled as `none` (undefined behaviour) whenever `trans` is not
the last element of the list.  At both call sites (uplink `VWG_R`/`SRG_R`,
src/cnetz/cnetz.c:852, and network setup, src/cnetz/cnetz.c:309) the argument
was just appended at the tail by `create_transaction`, so that loop body is
unreachable and only the second loop runs. -/
def cnetz_flush_other_transactions (l : List Transaction) (t : Transaction) :
    Option (List Transaction × List Transaction) :=
  if l.getLast? = some t then some (flush_before l t) else none

theorem flush_before_append {l : List Transaction} {t : Transaction} (h : t ∉ l) :
    flush_before (l ++ [t]) t = (l, [t]) := by
  induction l with
  | nil => simp [flush_before]
  | cons x xs ih =>
    have hx : x ≠ t := by
      intro he
      exact h (he ▸ List.mem_cons_self x xs)
    have hxs : t ∉ xs := fun hm => h (List.mem_cons_of_mem x hm)
    simp only [List.cons_append, flush_before, if_neg hx, List.append_eq, ih hxs]

theorem remove_first_dup_mem {l : List Transaction} {t u : Transaction}
    (h : u ∈ remove_first_dup l t) : u ∈ l := by
  induction l with
  | nil => simp [remove_first_dup] at h
  | cons x xs ih =>
    by_cases hs : sameSubscriber t x
    · simp only [remove_first_dup, if_pos hs] at h
      exact List.mem_cons_of_mem x h
    · simp only [remove_first_dup, if_neg hs, List.mem_cons] at h
      rcases h with rfl | h
      · exact List.mem_cons_self u xs
      · exact List.mem_cons_of_mem x (ih h)

/-- C3: when a new call request is accepted (`create_transaction` appends the
fresh transaction at the tail) and the sibling flush runs, every other
transaction on the channel is destroyed, oldest first in list (= insertion)
order, and afterwards the channel's list contains exactly the new
transaction. -/
theorem flush_after_create (l : List Transaction) (t : Transaction)
    (hfresh : ∀ u ∈ l, u.ptr ≠ t.ptr) :
    cnetz_flush_other_transactions (create_transaction l t) t =
      some (remove_first_dup l t, [t]) := by
  have hnot : t ∉ remove_first_dup l t := by
    intro hm
    exact hfresh t (remove_first_dup_mem hm) rfl
  rw [cnetz_flush_other_transactions, create_transaction]
  rw [if_pos (by simp), flush_before_append hnot]

/-- C3 witness: one pending transaction, one fresh call request. -/
theorem flush_after_create_witness :
    (∀ u ∈ [Transaction.mk 1 2 2 22002], u.ptr ≠ (Transaction.mk 2 3 3 33003).ptr) ∧
    cnetz_flush_other_transactions
        (create_transaction [Transaction.mk 1 2 2 22002] (Transaction.mk 2 3 3 33003))
        (Transaction.mk 2 3 3 33003) =
      some (remove_first_dup [Transaction.mk 1 2 2 22002] (Transaction.mk 2 3 3 33003),
        [Transaction.mk 2 3 3 33003]) :=
  ⟨by decide, flush_after_create _ _ (by decide)⟩

end Cnetz

namespace Cnetz

/-- DSP modes of the C-Netz transceiver relevant to the scheduler.  The enum
lives in a header not under src/; per spec §3 these are the idle broadcast
(OgK), concentrated signalling (SpK(K)) and distributed signalling (SpK(V)). -/
inductive DspMode where
  | ogk
  | spk_k
  | spk_v
deriving DecidableEq

/-- Scheduler-visible state of one channel (fields of `cnetz_t`): the live DSP
mode, the scheduled mode, the switch countdown, the time slot 0..31 and the
R/M sub-phase (`sched_r_m = 0` is sub-phase R, the "Rufblock"). -/
structure SchedState where
  dsp_mode : DspMode
  sched_dsp_mode : DspMode
  sched_switch_mode : ℕ
  sched_ts : ℕ
  sched_r_m : ℕ
deriving DecidableEq

/-- Scheduling requests raised while the block being emitted is encoded
(`cnetz_encode_telegramm` dispatches into src/cnetz/cnetz.c):
`assign_spk_k` is a `VAG_R`/`VAK_R` channel assignment on the Rufblock
(src/cnetz/cnetz.c:742-744); `assign_spk_v` is the `DS`/`AHQ` handler on the
speech channel at `(sched_ts & 7) == 7` of sub-phase M
(src/cnetz/cnetz.c:947-952 and 965-971). -/
inductive TxEvent where
  | none
  | assign_spk_k
  | assign_spk_v

/-- Effect of a scheduling request during block encoding.  The guards restate
the conditions at the call sites; `sched_switch_mode = 0` reflects that each
request accompanies a transaction-state transition that happens exactly once
(VAG/VAK → BQ resp. DS/AHQ → VHQ), so no second request is raised while a
switch is still pending. -/
def applyTxEvent (e : TxEvent) (s : SchedState) : SchedState :=
  match e with
  | .none => s
  | .assign_spk_k =>
    if s.dsp_mode = .ogk ∧ s.sched_r_m = 0 ∧ s.sched_switch_mode = 0 then
      { s with sched_switch_mode := 2, sched_dsp_mode := .spk_k }
    else s
  | .assign_spk_v =>
    if s.dsp_mode = .spk_k ∧ s.sched_ts &&& 7 = 7 ∧ s.sched_r_m = 1 ∧
        s.sched_switch_mode = 0 then
      { s with sched_switch_mode := 1, sched_dsp_mode := .spk_v }
    else s

/-- One block boundary of `fsk_telegramm` (src/cnetz/dsp.c:568-627):
1. on sub-phase R a pending switch countdown is decremented and, on reaching
   zero, `sched_dsp_mode` becomes the live mode (dsp.c:574-580);
2. the block encoder may raise a scheduling request (dsp.c:582-611, via
   `cnetz_encode_telegramm`);
3. the slot counters advance — `sched_ts += 8` in distributed mode, otherwise
   the R/M sub-phase toggles with `sched_ts++` on wrap — and `sched_ts` wraps
   from 32 to 0 (dsp.c:613-626). -/
def schedStep (e : TxEvent) (s : SchedState) : SchedState :=
  let s :=
    if s.sched_switch_mode ≠ 0 ∧ s.sched_r_m = 0 then
      if s.sched_switch_mode - 1 = 0 then
        { s with sched_switch_mode := 0, dsp_mode := s.sched_dsp_mode }
      else { s with sched_switch_mode := s.sched_switch_mode - 1 }
    else s
  let s := applyTxEvent e s
  let s :=
    if s.dsp_mode = .spk_v then { s with sched_ts := s.sched_ts + 8 }
    else if s.sched_r_m = 0 then { s with sched_r_m := 1 }
    else { s with sched_r_m := 0, sched_ts := s.sched_ts + 1 }
  if s.sched_ts = 32 then { s with sched_ts := 0 } else s

/-- `cnetz_go_idle` (src/cnetz/cnetz.c:183-202): on a speech channel schedule
a switch back to OgK one sub-slot ahead, otherwise switch immediately. -/
def goIdle (s : SchedState) : SchedState :=
  if s.dsp_mode = .spk_k ∨ s.dsp_mode = .spk_v then
    { s with sched_switch_mode := 1, sched_dsp_mode := .ogk }
  else
    { s with sched_switch_mode := 0, dsp_mode := .ogk }

/-- `cnetz_release` (src/cnetz/cnetz.c:205-212): entering the `AF` release
state zeroes `sched_switch_mode` without touching either mode field. -/
def releaseStep (s : SchedState) : SchedState :=
  { s with sched_switch_mode := 0 }

/-- Scheduler states reachable from channel creation
(src/cnetz/cnetz.c:143-146: both modes OgK, no pending switch, zeroed
counters).  `release` fires only on a speech channel, as at its call sites
(timeouts of speech-channel transaction states, call-control
release/disconnect on SpK). -/
inductive Reach : SchedState → Prop where
  | init : Reach ⟨.ogk, .ogk, 0, 0, 0⟩
  | step (e : TxEvent) (s : SchedState) : Reach s → Reach (schedStep e s)
  | go_idle (s : SchedState) : Reach s → Reach (goIdle s)
  | release (s : SchedState) : Reach s →
      s.dsp_mode = .spk_k ∨ s.dsp_mode = .spk_v → Reach (releaseStep s)

theorem and_seven_eq_mod (t : ℕ) : t &&& 7 = t % 8 := by
  have h : (7 : ℕ) = 2 ^ 3 - 1 := by norm_num
  rw [h, Nat.and_pow_two_sub_one_eq_mod]

/-- Inductive invariant of the scheduler: slot counters stay in range, in
distributed mode the slot counter is a multiple of 8 on sub-phase R, and a
pending switch to distributed mode is always one sub-slot ahead on sub-phase R
of a concentrated-mode channel with an aligned slot counter. -/
def SchedInv (s : SchedState) : Prop :=
  s.sched_ts < 32 ∧ s.sched_r_m < 2 ∧
  (s.dsp_mode = .spk_v → s.sched_ts % 8 = 0 ∧ s.sched_r_m = 0) ∧
  (s.sched_dsp_mode = .spk_v ∧ s.sched_switch_mode ≠ 0 →
    s.dsp_mode = .spk_k ∧ s.sched_switch_mode = 1 ∧ s.sched_r_m = 0 ∧
      s.sched_ts % 8 = 0)

/-- Proof-side name for the switch phase of `schedStep` (dsp.c:574-580). -/
def switchPhase (s : SchedState) : SchedState :=
  if s.sched_switch_mode ≠ 0 ∧ s.sched_r_m = 0 then
    if s.sched_switch_mode - 1 = 0 then
      { s with sched_switch_mode := 0, dsp_mode := s.sched_dsp_mode }
    else { s with sched_switch_mode := s.sched_switch_mode - 1 }
  else s

/-- Proof-side name for the slot-advance phase of `schedStep` (dsp.c:613-624). -/
def advancePhase (s : SchedState) : SchedState :=
  if s.dsp_mode = .spk_v then { s with sched_ts := s.sched_ts + 8 }
  else if s.sched_r_m = 0 then { s with sched_r_m := 1 }
  else { s with sched_r_m := 0, sched_ts := s.sched_ts + 1 }

/-- Proof-side name for the slot wrap of `schedStep` (dsp.c:625-626). -/
def wrapPhase (s : SchedState) : SchedState :=
  if s.sched_ts = 32 then { s with sched_ts := 0 } else s

theorem schedStep_eq (e : TxEvent) (s : SchedState) :
    schedStep e s = wrapPhase (advancePhase (applyTxEvent e (switchPhase s))) := rfl

/-- After the switch phase no switch to distributed mode is still pending:
`SchedInv` forces such a switch to sit on sub-phase R with countdown 1, so the
switch phase has just consumed it. -/
def PostSwitchInv (s : SchedState) : Prop :=
  s.sched_ts < 32 ∧ s.sched_r_m < 2 ∧
  (s.dsp_mode = .spk_v → s.sched_ts % 8 = 0 ∧ s.sched_r_m = 0) ∧
  ¬ (s.sched_dsp_mode = .spk_v ∧ s.sched_switch_mode ≠ 0)

/-- Between the scheduling request and the slot advance, a pending switch to
distributed mode sits on the M sub-phase of a slot with `ts % 8 = 7` (it was
just requested by the `DS`/`AHQ` handler). -/
def MidInv (s : SchedState) : Prop :=
  s.sched_ts < 32 ∧ s.sched_r_m < 2 ∧
  (s.dsp_mode = .spk_v → s.sched_ts % 8 = 0 ∧ s.sched_r_m = 0) ∧
  (s.sched_dsp_mode = .spk_v ∧ s.sched_switch_mode ≠ 0 →
    s.dsp_mode = .spk_k ∧ s.sched_switch_mode = 1 ∧ s.sched_r_m = 1 ∧
      s.sched_ts % 8 = 7)

theorem switchPhase_inv (s : SchedState) (ih : SchedInv s) :
    PostSwitchInv (switchPhase s) := by
  obtain ⟨dm, sm, sw, ts, rm⟩ := s
  obtain ⟨h1, h2, h3, h4⟩ := ih
  simp only at h1 h2 h3 h4
  rw [switchPhase]
  split_ifs with hc hz
  · -- countdown reached zero: dsp_mode := sched_dsp_mode, countdown := 0
    refine ⟨h1, h2, fun hv => ?_, by simp⟩
    simp only at hv
    subst hv
    exact ⟨(h4 ⟨rfl, hc.1⟩).2.2.2, hc.2⟩
  · -- countdown decremented but still positive: it was ≥ 2, so the scheduled
    -- mode cannot be distributed (that would force countdown 1)
    refine ⟨h1, h2, h3, fun hp => ?_⟩
    simp only at hp
    have := h4 ⟨hp.1, hc.1⟩
    omega
  · -- no countdown or sub-phase M: a pending distributed switch would force
    -- countdown 1 on sub-phase R, contradicting the guard
    refine ⟨h1, h2, h3, fun hp => ?_⟩
    simp only at hp
    have := h4 hp
    exact hc ⟨hp.2, this.2.2.1⟩

theorem applyTxEvent_midInv (e : TxEvent) (s : SchedState) (ih : PostSwitchInv s) :
    MidInv (applyTxEvent e s) := by
  obtain ⟨dm, sm, sw, ts, rm⟩ := s
  obtain ⟨h1, h2, h3, h4⟩ := ih
  simp only at h1 h2 h3 h4
  rcases e with _ | _ | _
  · exact ⟨h1, h2, h3, fun hp => absurd hp h4⟩
  · rw [applyTxEvent]
    split_ifs with hg
    · obtain ⟨hdm, hrm, hsw⟩ := hg
      simp only at hdm hrm hsw
      subst hdm
      exact ⟨h1, h2, by simp, by simp⟩
    · exact ⟨h1, h2, h3, fun hp => absurd hp h4⟩
  · rw [applyTxEvent]
    split_ifs with hg
    · obtain ⟨hdm, hts, hrm, hsw⟩ := hg
      simp only at hdm hts hrm hsw
      subst hdm
      rw [and_seven_eq_mod] at hts
      exact ⟨h1, h2, by simp, fun _ => ⟨rfl, rfl, hrm, hts⟩⟩
    · exact ⟨h1, h2, h3, fun hp => absurd hp h4⟩

theorem advanceWrap_inv (s : SchedState) (ih : MidInv s) :
    SchedInv (wrapPhase (advancePhase s)) := by
  obtain ⟨dm, sm, sw, ts, rm⟩ := s
  obtain ⟨h1, h2, h3, h4⟩ := ih
  simp only at h1 h2 h3 h4
  simp only [advancePhase, wrapPhase, SchedInv]
  split_ifs <;> simp_all
  all_goals try omega
  refine ⟨by omega, fun hsm hsw => ?_⟩
  have := h4 hsm hsw
  omega

theorem schedInv_step (e : TxEvent) (s : SchedState) (ih : SchedInv s) :
    SchedInv (schedStep e s) := by
  rw [schedStep_eq]
  exact advanceWrap_inv _ (applyTxEvent_midInv e _ (switchPhase_inv s ih))

theorem schedInv_goIdle (s : SchedState) (ih : SchedInv s) : SchedInv (goIdle s) := by
  obtain ⟨dm, sm, sw, ts, rm⟩ := s
  obtain ⟨h1, h2, h3, h4⟩ := ih
  simp only at h1 h2 h3 h4
  rw [goIdle]
  split_ifs with hg
  · exact ⟨h1, h2, h3, by simp⟩
  · simp only at hg
    refine ⟨h1, h2, by simp_all, by simp⟩

theorem schedInv_release (s : SchedState) (ih : SchedInv s) : SchedInv (releaseStep s) := by
  obtain ⟨dm, sm, sw, ts, rm⟩ := s
  obtain ⟨h1, h2, h3, h4⟩ := ih
  simp only at h1 h2 h3 h4
  exact ⟨h1, h2, h3, by simp [releaseStep]⟩

theorem reach_schedInv {s : SchedState} (h : Reach s) : SchedInv s := by
  induction h with
  | init => exact ⟨by norm_num, by norm_num, by simp, by simp⟩
  | step e s hs ih => exact schedInv_step e s ih
  | go_idle s hs ih => exact schedInv_goIdle s ih
  | release s hs hsp ih => exact schedInv_release s ih

/-- The two supervisory opcodes of distributed signalling. -/
inductive SpkVOpcode where
  | VHQ1_V
  | VHQ2_V
deriving DecidableEq

/-- Opcode selection of `cnetz_transmit_telegramm_spk_v` in state `TRANS_VHQ`
(src/cnetz/cnetz.c:1133-1138): sub-frames 1 and 3 (`sched_ts & 8 == 0`) send
`VHQ1_V`, sub-frames 2 and 4 send `VHQ2_V`. -/
def spk_v_vhq_opcode (ts : ℕ) : SpkVOpcode :=
  if ts &&& 8 = 0 then .VHQ1_V else .VHQ2_V

theorem applyTxEvent_dsp (e : TxEvent) (u : SchedState) :
    (applyTxEvent e u).dsp_mode = u.dsp_mode := by
  rcases e <;> rw [applyTxEvent] <;> try rfl
  all_goals split_ifs <;> rfl

theorem applyTxEvent_ts (e : TxEvent) (u : SchedState) :
    (applyTxEvent e u).sched_ts = u.sched_ts := by
  rcases e <;> rw [applyTxEvent] <;> try rfl
  all_goals split_ifs <;> rfl

theorem switchPhase_ts (u : SchedState) : (switchPhase u).sched_ts = u.sched_ts := by
  rw [switchPhase]; split_ifs <;> rfl

theorem advancePhase_dsp (u : SchedState) : (advancePhase u).dsp_mode = u.dsp_mode := by
  rw [advancePhase]; split_ifs <;> rfl

theorem wrapPhase_dsp (u : SchedState) : (wrapPhase u).dsp_mode = u.dsp_mode := by
  rw [wrapPhase]; split_ifs <;> rfl

theorem switchPhase_spk_v_ts {u : SchedState} (inv : SchedInv u)
    (h : (switchPhase u).dsp_mode = DspMode.spk_v) : u.sched_ts % 8 = 0 := by
  obtain ⟨h1, h2, h3, h4⟩ := inv
  rw [switchPhase] at h
  split_ifs at h with hc hz
  · simp only at h
    exact (h4 ⟨h, hc.1⟩).2.2.2
  · simp only at h
    exact (h3 h).1
  · exact (h3 h).1

/-- C5: whenever the block just emitted was a distributed-signalling block
(the live mode after the boundary is `DSP_MODE_SPK_V`), the slot counter
advanced by exactly 8 modulo 32, stays below 32, was a multiple of 8, and the
`VHQ` opcode selected by `sched_ts & 8` alternates between successive
distributed blocks. -/
theorem spk_v_slot_advance {s : SchedState} (hs : Reach s) (e : TxEvent)
    (hv : (schedStep e s).dsp_mode = DspMode.spk_v) :
    (schedStep e s).sched_ts = (s.sched_ts + 8) % 32 ∧
    (schedStep e s).sched_ts < 32 ∧ s.sched_ts % 8 = 0 ∧
    spk_v_vhq_opcode ((schedStep e s).sched_ts) ≠ spk_v_vhq_opcode s.sched_ts := by
  have inv := reach_schedInv hs
  have ht : (applyTxEvent e (switchPhase s)).dsp_mode = DspMode.spk_v := by
    rw [schedStep_eq, wrapPhase_dsp, advancePhase_dsp] at hv
    exact hv
  have ht2 : (switchPhase s).dsp_mode = DspMode.spk_v := by
    rw [applyTxEvent_dsp] at ht
    exact ht
  have hts8 : s.sched_ts % 8 = 0 := switchPhase_spk_v_ts inv ht2
  have htslt : s.sched_ts < 32 := inv.1
  have hts_t : (applyTxEvent e (switchPhase s)).sched_ts = s.sched_ts := by
    rw [applyTxEvent_ts, switchPhase_ts]
  have hstep : (schedStep e s).sched_ts =
      if s.sched_ts + 8 = 32 then 0 else s.sched_ts + 8 := by
    rw [schedStep_eq, advancePhase, if_pos ht]
    rw [wrapPhase]
    by_cases hw : s.sched_ts + 8 = 32
    · rw [if_pos (by simp [hts_t, hw])]
      simp [hw]
    · rw [if_neg (by simp [hts_t, hw])]
      simp [hts_t, hw]
  have hmod : (if s.sched_ts + 8 = 32 then 0 else s.sched_ts + 8) =
      (s.sched_ts + 8) % 32 := by
    split_ifs with h <;> omega
  refine ⟨hstep.trans hmod, by rw [hstep.trans hmod]; omega, hts8, ?_⟩
  rw [hstep.trans hmod]
  have hcases : s.sched_ts = 0 ∨ s.sched_ts = 8 ∨ s.sched_ts = 16 ∨ s.sched_ts = 24 := by
    omega
  rcases hcases with h | h | h | h <;> rw [h] <;> decide

theorem advancePhase_sw (u : SchedState) :
    (advancePhase u).sched_switch_mode = u.sched_switch_mode := by
  rw [advancePhase]; split_ifs <;> rfl

theorem advancePhase_sdm (u : SchedState) :
    (advancePhase u).sched_dsp_mode = u.sched_dsp_mode := by
  rw [advancePhase]; split_ifs <;> rfl

theorem wrapPhase_sw (u : SchedState) :
    (wrapPhase u).sched_switch_mode = u.sched_switch_mode := by
  rw [wrapPhase]; split_ifs <;> rfl

theorem wrapPhase_sdm (u : SchedState) :
    (wrapPhase u).sched_dsp_mode = u.sched_dsp_mode := by
  rw [wrapPhase]; split_ifs <;> rfl

/-- A concrete run of the channel: idle broadcast, a `VAG_R` channel
assignment with its two-slot lookahead, the switch to concentrated
signalling, eight slots of `BQ`/`VHQ` traffic, and the `DS` handler
scheduling the switch to distributed signalling one sub-slot ahead. -/
theorem reach_pre_spk_v :
    Reach ⟨DspMode.spk_k, DspMode.spk_v, 1, 8, 0⟩ := by
  have h0 : Reach ⟨DspMode.ogk, DspMode.ogk, 0, 0, 0⟩ := Reach.init
  have h1 : Reach ⟨DspMode.ogk, DspMode.spk_k, 2, 0, 1⟩ :=
    Reach.step TxEvent.assign_spk_k _ h0
  have h2 : Reach ⟨DspMode.ogk, DspMode.spk_k, 2, 1, 0⟩ :=
    Reach.step TxEvent.none _ h1
  have h3 : Reach ⟨DspMode.ogk, DspMode.spk_k, 1, 1, 1⟩ :=
    Reach.step TxEvent.none _ h2
  have h4 : Reach ⟨DspMode.ogk, DspMode.spk_k, 1, 2, 0⟩ :=
    Reach.step TxEvent.none _ h3
  have h5 : Reach ⟨DspMode.spk_k, DspMode.spk_k, 0, 2, 1⟩ :=
    Reach.step TxEvent.none _ h4
  have h6 : Reach ⟨DspMode.spk_k, DspMode.spk_k, 0, 3, 0⟩ :=
    Reach.step TxEvent.none _ h5
  have h7 : Reach ⟨DspMode.spk_k, DspMode.spk_k, 0, 3, 1⟩ :=
    Reach.step TxEvent.none _ h6
  have h8 : Reach ⟨DspMode.spk_k, DspMode.spk_k, 0, 4, 0⟩ :=
    Reach.step TxEvent.none _ h7
  have h9 : Reach ⟨DspMode.spk_k, DspMode.spk_k, 0, 4, 1⟩ :=
    Reach.step TxEvent.none _ h8
  have h10 : Reach ⟨DspMode.spk_k, DspMode.spk_k, 0, 5, 0⟩ :=
    Reach.step TxEvent.none _ h9
  have h11 : Reach ⟨DspMode.spk_k, DspMode.spk_k, 0, 5, 1⟩ :=
    Reach.step TxEvent.none _ h10
  have h12 : Reach ⟨DspMode.spk_k, DspMode.spk_k, 0, 6, 0⟩ :=
    Reach.step TxEvent.none _ h11
  have h13 : Reach ⟨DspMode.spk_k, DspMode.spk_k, 0, 6, 1⟩ :=
    Reach.step TxEvent.none _ h12
  have h14 : Reach ⟨DspMode.spk_k, DspMode.spk_k, 0, 7, 0⟩ :=
    Reach.step TxEvent.none _ h13
  have h15 : Reach ⟨DspMode.spk_k, DspMode.spk_k, 0, 7, 1⟩ :=
    Reach.step TxEvent.none _ h14
  exact Reach.step TxEvent.assign_spk_v _ h15

/-- C5 witness: the reachable state just before the switch to distributed
signalling; the next block is distributed, jumps the slot counter from 8 to
16 and flips the `VHQ` opcode. -/
theorem spk_v_slot_advance_witness :
    (schedStep TxEvent.none ⟨DspMode.spk_k, DspMode.spk_v, 1, 8, 0⟩).dsp_mode =
        DspMode.spk_v ∧
    ((schedStep TxEvent.none ⟨DspMode.spk_k, DspMode.spk_v, 1, 8, 0⟩).sched_ts =
        (8 + 8) % 32 ∧
      (schedStep TxEvent.none ⟨DspMode.spk_k, DspMode.spk_v, 1, 8, 0⟩).sched_ts < 32 ∧
      (8 : ℕ) % 8 = 0 ∧
      spk_v_vhq_opcode
          (schedStep TxEvent.none ⟨DspMode.spk_k, DspMode.spk_v, 1, 8, 0⟩).sched_ts ≠
        spk_v_vhq_opcode 8) :=
  ⟨rfl, spk_v_slot_advance reach_pre_spk_v TxEvent.none rfl⟩

/-- C4 (amended): the live DSP mode changes only at a block boundary on
sub-phase R with countdown 1, and then to the scheduled mode; on sub-phase R a
pending countdown is decremented by one and the switch fires exactly when it
reaches zero; on sub-phase M neither changes; the property "when the modes
differ the countdown is strictly positive" is preserved by every scheduler
block step (but not by `cnetz_release`, see the counterexample). -/
theorem sched_switch_mode_behaviour :
    (∀ (s : SchedState) (e : TxEvent), (schedStep e s).dsp_mode ≠ s.dsp_mode →
      s.sched_r_m = 0 ∧ s.sched_switch_mode = 1 ∧
        (schedStep e s).dsp_mode = s.sched_dsp_mode) ∧
    (∀ s : SchedState, s.sched_switch_mode ≠ 0 → s.sched_r_m = 0 →
      (schedStep TxEvent.none s).sched_switch_mode = s.sched_switch_mode - 1 ∧
      (schedStep TxEvent.none s).dsp_mode =
        (if s.sched_switch_mode = 1 then s.sched_dsp_mode else s.dsp_mode)) ∧
    (∀ s : SchedState, s.sched_switch_mode ≠ 0 → s.sched_r_m ≠ 0 →
      (schedStep TxEvent.none s).sched_switch_mode = s.sched_switch_mode ∧
      (schedStep TxEvent.none s).dsp_mode = s.dsp_mode) ∧
    (∀ (s : SchedState) (e : TxEvent),
      (s.dsp_mode ≠ s.sched_dsp_mode → 0 < s.sched_switch_mode) →
      ((schedStep e s).dsp_mode ≠ (schedStep e s).sched_dsp_mode →
        0 < (schedStep e s).sched_switch_mode)) := by
  have hdsp : ∀ (e : TxEvent) (s : SchedState),
      (schedStep e s).dsp_mode = (switchPhase s).dsp_mode := by
    intro e s
    rw [schedStep_eq, wrapPhase_dsp, advancePhase_dsp, applyTxEvent_dsp]
  have hsw_none : ∀ s : SchedState,
      (schedStep TxEvent.none s).sched_switch_mode =
        (switchPhase s).sched_switch_mode := by
    intro s
    rw [schedStep_eq, wrapPhase_sw, advancePhase_sw]
    rfl
  refine ⟨?_, ?_, ?_, ?_⟩
  · intro s e h
    rw [hdsp] at h ⊢
    rw [switchPhase] at h ⊢
    split_ifs at h ⊢ with hc hz
    · exact ⟨hc.2, by omega, rfl⟩
    · simp only at h
      exact absurd rfl h
    · exact absurd rfl h
  · intro s hsw hrm
    constructor
    · rw [hsw_none, switchPhase]
      rw [if_pos ⟨hsw, hrm⟩]
      split_ifs with hz
      · dsimp only
        omega
      · dsimp only
    · rw [hdsp, switchPhase, if_pos ⟨hsw, hrm⟩]
      split_ifs with hz h1 h1
      · rfl
      · omega
      · omega
      · rfl
  · intro s hsw hrm
    have hskip : switchPhase s = s := by
      rw [switchPhase, if_neg]
      rintro ⟨_, h⟩
      exact hrm h
    exact ⟨by rw [hsw_none, hskip], by rw [hdsp, hskip]⟩
  · intro s e hpre
    -- the scheduled mode and countdown after the step come from the event
    -- phase; the slot phases do not touch them
    have hsdm : (schedStep e s).sched_dsp_mode =
        (applyTxEvent e (switchPhase s)).sched_dsp_mode := by
      rw [schedStep_eq, wrapPhase_sdm, advancePhase_sdm]
    have hsw : (schedStep e s).sched_switch_mode =
        (applyTxEvent e (switchPhase s)).sched_switch_mode := by
      rw [schedStep_eq, wrapPhase_sw, advancePhase_sw]
    have hdsp2 : (schedStep e s).dsp_mode =
        (applyTxEvent e (switchPhase s)).dsp_mode := by
      rw [hdsp, applyTxEvent_dsp]
    rw [hsdm, hsw, hdsp2]
    have hmid : (switchPhase s).dsp_mode ≠ (switchPhase s).sched_dsp_mode →
        0 < (switchPhase s).sched_switch_mode := by
      rw [switchPhase]
      split_ifs with hc hz
      · intro h
        exact absurd rfl h
      · intro _
        simp only
        omega
      · exact hpre
    rcases e with _ | _ | _
    · exact hmid
    · rw [applyTxEvent]
      split_ifs with hg
      · intro _
        simp only
        omega
      · exact hmid
    · rw [applyTxEvent]
      split_ifs with hg
      · intro _
        simp only
        omega
      · exact hmid

/-- C4 counterexample: after the `DS` handler has scheduled the switch to
distributed signalling (countdown 1), `cnetz_release` zeroes the countdown
without touching either mode, reaching a state where the live and scheduled
modes differ while the countdown is 0. -/
theorem sched_switch_invariant_counterexample :
    Reach ⟨DspMode.spk_k, DspMode.spk_v, 0, 8, 0⟩ ∧
    (SchedState.mk DspMode.spk_k DspMode.spk_v 0 8 0).dsp_mode ≠
      (SchedState.mk DspMode.spk_k DspMode.spk_v 0 8 0).sched_dsp_mode ∧
    ¬ 0 < (SchedState.mk DspMode.spk_k DspMode.spk_v 0 8 0).sched_switch_mode :=
  ⟨Reach.release _ reach_pre_spk_v (Or.inl rfl), by simp, by simp⟩

end Cnetz

namespace Pocsag

theorem and_two_pow_31_eq_zero {a : ℕ} (h : a < 2 ^ 31) : a &&& 0x80000000 = 0 := by
  apply Nat.eq_of_testBit_eq
  intro i
  simp only [Nat.testBit_and, Nat.zero_testBit]
  have hm : (0x80000000 : ℕ) = 2 ^ 31 := by norm_num
  by_cases h31 : i = 31
  · subst h31
    simp [Nat.testBit_lt_two_pow h]
  · rw [hm, Nat.testBit_two_pow_of_ne (fun he => h31 he.symm)]
    simp

/-- Adding fewer than 8 and masking with `0x1ffff8` (bits 3..20) recovers an
18-bit value shifted up by 3. -/
theorem mask_ric_field {A r : ℕ} (hA : A < 2 ^ 18) (hr : r < 8) :
    (8 * A + r) &&& 0x1ffff8 = 8 * A := by
  have h8 : (8 : ℕ) * A = 2 ^ 3 * A := by norm_num
  have hor : 2 ^ 3 * A + r = 2 ^ 3 * A ||| r := Nat.mul_add_lt_is_or hr A
  have hmask : (0x1ffff8 : ℕ) = (2 ^ 18 - 1) <<< 3 := by
    rw [Nat.shiftLeft_eq]; norm_num
  have hsh : 2 ^ 3 * A = A <<< 3 := by
    rw [Nat.shiftLeft_eq, Nat.mul_comm]
  have hz : r &&& 0x1ffff8 = 0 := by
    apply Nat.eq_of_testBit_eq
    intro i
    simp only [Nat.testBit_and, Nat.zero_testBit]
    rcases Nat.lt_or_ge i 3 with h | h
    · have hmb : (0x1ffff8 : ℕ).testBit i = false := by
        interval_cases i <;> decide
      simp [hmb]
    · have hrb : r.testBit i = false := by
        refine Nat.testBit_lt_two_pow (lt_of_lt_of_le hr ?_)
        calc (8 : ℕ) = 2 ^ 3 := by norm_num
          _ ≤ 2 ^ i := Nat.pow_le_pow_right (by norm_num) h
      simp [hrb]
  have hid : (2 ^ 3 * A) &&& 0x1ffff8 = 2 ^ 3 * A := by
    apply Nat.eq_of_testBit_eq
    intro i
    simp only [Nat.testBit_and]
    rcases Nat.lt_or_ge i 3 with h | h
    · have : (A <<< 3).testBit i = false := by
        simp [Nat.testBit_shiftLeft, Nat.not_le.mpr h]
      rw [hsh, this]
      simp
    · rcases Nat.lt_or_ge i 21 with h21 | h21
      · have hmb : (0x1ffff8 : ℕ).testBit i = true := by
          rw [hmask]
          simp only [Nat.testBit_shiftLeft, Nat.testBit_two_pow_sub_one]
          have : 3 ≤ i := h
          simp [this]
          omega
        simp [hmb]
      · have ha : A.testBit (i - 3) = false := by
          refine Nat.testBit_lt_two_pow (lt_of_lt_of_le hA ?_)
          exact Nat.pow_le_pow_right (by norm_num) (by omega)
        have : (A <<< 3).testBit i = false := by
          simp [Nat.testBit_shiftLeft, ha]
        rw [hsh, this]
        simp
  rw [h8, hor, Nat.and_distrib_right, hz, hid, Nat.or_zero]

/-- The RIC field of a received address codeword: the decoder's
`(word >> 10) & 0x1ffff8` recovers the upper 18 RIC bits shifted up by 3. -/
theorem encode_address_ric_field (ric f : ℕ) (hric : ric < 2 ^ 21) (hf : f < 4) :
    (encode_address ric f >>> 10) &&& 0x1ffff8 = 8 * (ric >>> 3) := by
  have hA : ric >>> 3 < 2 ^ 18 := by
    rw [Nat.shiftRight_eq_div_pow]
    norm_num at hric ⊢
    omega
  set A := ric >>> 3 with hAdef
  set crc := pocsag_crc (2 ^ 2 * A + f) with hcrcdef
  set p := pocsag_parity (2 ^ 10 * (2 ^ 2 * A + f) + crc) with hpdef
  have hE : encode_address ric f = 2 ^ 1 * (2 ^ 10 * (2 ^ 2 * A + f) + crc) + p :=
    encode_address_eq ric f hric hf
  have hcrclt : crc ≤ 0x3ff := pocsag_crc_le _
  have hplt : p ≤ 1 := pocsag_parity_le_one _
  have hdiv : encode_address ric f >>> 10 = 8 * A + (2 * f + (2 * crc + p) / 1024) := by
    rw [hE, Nat.shiftRight_eq_div_pow]
    norm_num at hcrclt hplt ⊢
    omega
  have hr : 2 * f + (2 * crc + p) / 1024 < 8 := by omega
  rw [hdiv]
  exact mask_ric_field hA hr

/-- The function field of a received address codeword. -/
theorem encode_address_function_field (ric f : ℕ) (hric : ric < 2 ^ 21) (hf : f < 4) :
    (encode_address ric f >>> 11) &&& 0x3 = f := by
  have hA : ric >>> 3 < 2 ^ 18 := by
    rw [Nat.shiftRight_eq_div_pow]
    norm_num at hric ⊢
    omega
  set crc := pocsag_crc (2 ^ 2 * (ric >>> 3) + f) with hcrcdef
  set p := pocsag_parity (2 ^ 10 * (2 ^ 2 * (ric >>> 3) + f) + crc) with hpdef
  have hE : encode_address ric f =
      2 ^ 1 * (2 ^ 10 * (2 ^ 2 * (ric >>> 3) + f) + crc) + p :=
    encode_address_eq ric f hric hf
  have hcrclt : crc ≤ 0x3ff := pocsag_crc_le _
  have hplt : p ≤ 1 := pocsag_parity_le_one _
  have h11 : encode_address ric f >>> 11 = 2 ^ 2 * (ric >>> 3) + f := by
    rw [hE, Nat.shiftRight_eq_div_pow]
    norm_num at hcrclt hplt ⊢
    omega
  rw [h11, show (0x3 : ℕ) = 2 ^ 2 - 1 from by norm_num,
    Nat.and_pow_two_sub_one_eq_mod]
  omega

end Pocsag

namespace Pocsag

/-- Modelled from the spec: `enum pocsag_function` is declared in pocsag.h,
which is not under src/.  Messages carry numeric content on function 0 and
alphanumeric content on function 3 (the standard POCSAG function bits); the
other functions are dumped as hex. -/
def POCSAG_FUNCTION_NUMERIC : ℕ := 0

/-- Modelled from the spec: see `POCSAG_FUNCTION_NUMERIC`. -/
def POCSAG_FUNCTION_ALPHA : ℕ := 3

/-- Modelled from the spec: the size of the receive buffer `rx_msg_data` is
declared in pocsag.h, which is not under src/.  The scenarios proved here
never approach the bound, so its exact value is immaterial. -/
def RX_MSG_DATA_SIZE : ℕ := 256

/-- Numeric character table (src/pocsag/frame.c:38). -/
def numeric : List Char := "0123456789RU -][".toList

/-- Hex character table (src/pocsag/frame.c:39). -/
def hexTable : List Char := "0123456789abcdef".toList

/-- Printable names for ASCII control characters (src/pocsag/frame.c:41-74;
the missing `>` in `<DC2` is in the source). -/
def ctrlchar : List String :=
  ["<NUL>", "<SOH>", "<STX>", "<ETX>", "<EOT>", "<ENQ>", "<ACK>", "<BEL>",
   "<BS>", "<HT>", "<LF>", "<VT>", "<FF>", "<CR>", "<SO>", "<SI>",
   "<DLE>", "<DC1>", "<DC2", "<DC3>", "<DC4>", "<NAK>", "<SYN>", "<ETB>",
   "<CAN>", "<EM>", "<SUB>", "<ESC>", "<FS>", "<GS>", "<RS>", "<US>"]

/-- Receiver state of one POCSAG channel (fields of `pocsag_t` used by
src/pocsag/frame.c): the pending-message flag, its RIC and function, the
received bytes (`rx_msg_data` up to `rx_msg_data_length`, with the
in-progress byte of `decode_alpha` kept separately), the bit index, and the
pages delivered so far through `pocsag_msg_receive` as (RIC, function, text).
The RIC is kept as an integer because `put_codeword` adds the (signed) slot
number. -/
structure PocsagRx where
  rx_msg_valid : Bool
  rx_msg_ric : ℤ
  rx_msg_function : ℕ
  rx_msg_data : List ℕ
  rx_msg_partial : ℕ
  rx_msg_bit_index : ℕ
  pages : List (ℤ × ℕ × String)
deriving DecidableEq

/-- A freshly created receiver (`pocsag_t` is `calloc`ed). -/
def pocsagRxInit : PocsagRx := ⟨false, 0, 0, [], 0, 0, []⟩

/-- `decode_address` (src/pocsag/frame.c:151-155): RIC from the payload's
upper 18 bits plus the slot, function from bits 11-12. -/
def decode_address_ric (word : ℕ) (slot : ℤ) : ℤ :=
  (((word >>> 10) &&& 0x1ffff8 : ℕ) : ℤ) + slot

/-- `decode_address`, function part (src/pocsag/frame.c:154). -/
def decode_address_function (word : ℕ) : ℕ :=
  (word >>> 11) &&& 0x3

/-- One digit of `decode_numeric` (src/pocsag/frame.c:200-203), LSB first. -/
def decode_numeric_digit (word i : ℕ) : ℕ :=
  let digit := (word >>> (27 - i * 4)) &&& 0x1
  let digit := (digit <<< 1) ||| ((word >>> (28 - i * 4)) &&& 0x1)
  let digit := (digit <<< 1) ||| ((word >>> (29 - i * 4)) &&& 0x1)
  let digit := (digit <<< 1) ||| ((word >>> (30 - i * 4)) &&& 0x1)
  digit

/-- `decode_numeric` (src/pocsag/frame.c:192-206): append five numeric
characters unless the buffer is full. -/
def decode_numeric (s : PocsagRx) (word : ℕ) : PocsagRx :=
  (List.range 5).foldl
    (fun s i =>
      if s.rx_msg_data.length = RX_MSG_DATA_SIZE then s
      else { s with rx_msg_data :=
        s.rx_msg_data ++ [(numeric.getD (decode_numeric_digit word i) '0').toNat] })
    s

/-- `decode_hex` (src/pocsag/frame.c:272-286). -/
def decode_hex (s : PocsagRx) (word : ℕ) : PocsagRx :=
  (List.range 5).foldl
    (fun s i =>
      if s.rx_msg_data.length = RX_MSG_DATA_SIZE then s
      else { s with rx_msg_data :=
        s.rx_msg_data ++ [(hexTable.getD (decode_numeric_digit word i) '0').toNat] })
    s

/-- `decode_alpha` (src/pocsag/frame.c:254-270): shift each of the 20 payload
bits into the in-progress byte (LSB first) and append it when 7 bits have
accumulated. -/
def decode_alpha (s : PocsagRx) (word : ℕ) : PocsagRx :=
  (List.range 20).foldl
    (fun s i =>
      if s.rx_msg_data.length = RX_MSG_DATA_SIZE then s
      else
        let b := if s.rx_msg_bit_index = 0 then 0 else s.rx_msg_partial
        let b := (b >>> 1) ||| (((word >>> (30 - i)) &&& 0x1) <<< 6)
        if s.rx_msg_bit_index + 1 = 7 then
          { s with rx_msg_bit_index := 0, rx_msg_partial := b,
                   rx_msg_data := s.rx_msg_data ++ [b] }
        else { s with rx_msg_bit_index := s.rx_msg_bit_index + 1, rx_msg_partial := b })
    s

/-- Text conversion of `done_rx_msg` (src/pocsag/frame.c:430-443): `<DEL>`
for 127, control-character names below 32, the character itself otherwise. -/
def msg_text_char (b : ℕ) : String :=
  if b = 127 then "<DEL>"
  else if b < 32 then ctrlchar.getD b ""
  else String.singleton (Char.ofNat b)

/-- The message text assembled by `done_rx_msg`. -/
def msg_text (data : List ℕ) : String :=
  String.join (data.map msg_text_char)

/-- `done_rx_msg` (src/pocsag/frame.c:421-448): if a message is pending,
clear the flag and deliver the page via `pocsag_msg_receive`. -/
def done_rx_msg (s : PocsagRx) : PocsagRx :=
  if ¬ s.rx_msg_valid then s
  else
    { s with rx_msg_valid := false,
             pages := s.pages ++
               [(s.rx_msg_ric, s.rx_msg_function, msg_text s.rx_msg_data)] }

/-- `put_codeword` (src/pocsag/frame.c:450-498): sync outside a batch is
skipped; invalid words and idle words finish any pending message; an address
word finishes any pending message and starts a new one; message words extend
the pending message according to its function. -/
def put_codeword (s : PocsagRx) (word : ℕ) (slot : ℤ) : PocsagRx :=
  if slot < 0 ∧ word = CODEWORD_SYNC then s
  else if ¬ debug_word_ok word then done_rx_msg s
  else if word = CODEWORD_IDLE then done_rx_msg s
  else if word &&& 0x80000000 = 0 then
    let s := done_rx_msg s
    { s with rx_msg_valid := true,
             rx_msg_ric := decode_address_ric word slot,
             rx_msg_function := decode_address_function word,
             rx_msg_data := [],
             rx_msg_bit_index := 0 }
  else if ¬ s.rx_msg_valid then s
  else if s.rx_msg_function = POCSAG_FUNCTION_NUMERIC then decode_numeric s word
  else if s.rx_msg_function = POCSAG_FUNCTION_ALPHA then decode_alpha s word
  else decode_hex s word

end Pocsag

namespace Pocsag

theorem put_codeword_idle_invalid {s : PocsagRx} (slot : ℤ)
    (hv : s.rx_msg_valid = false) : put_codeword s CODEWORD_IDLE slot = s := by
  rw [put_codeword]
  rw [if_neg (by rintro ⟨_, h⟩; exact absurd h (by decide))]
  rw [if_neg (by simp [show debug_word_ok CODEWORD_IDLE = true from by decide])]
  rw [if_pos rfl, done_rx_msg, if_pos (by simp [hv])]

theorem put_codeword_idle_iter {slot : ℤ} {s : PocsagRx}
    (hv : s.rx_msg_valid = false) (n : ℕ) :
    (fun s => put_codeword s CODEWORD_IDLE slot)^[n] s = s := by
  induction n with
  | zero => rfl
  | succ m ih =>
    rw [Function.iterate_succ_apply, put_codeword_idle_invalid slot hv, ih]

/-- C9: feeding the receiver one valid address codeword at slot `slot`
followed by `n ≥ 1` idle codewords produces exactly one page, carrying the
RIC reconstructed from the codeword payload (upper 18 bits) plus the slot
index, the function bits, and an empty message text; the page is delivered
exactly when the first idle codeword is processed, and later idle codewords
change nothing. -/
theorem receive_address_then_idles (ric f : ℕ) (slot : ℤ) (n : ℕ)
    (hric : ric < 2 ^ 21) (hf : f < 4) (hslot : 0 ≤ slot)
    (hni : encode_address ric f ≠ CODEWORD_IDLE) (hn : 1 ≤ n) :
    (put_codeword pocsagRxInit (encode_address ric f) slot).pages = [] ∧
    (put_codeword pocsagRxInit (encode_address ric f) slot).rx_msg_valid = true ∧
    ((fun s => put_codeword s CODEWORD_IDLE slot)^[n]
        (put_codeword pocsagRxInit (encode_address ric f) slot)).pages =
      [(((8 * (ric >>> 3) : ℕ) : ℤ) + slot, f, "")] ∧
    ((fun s => put_codeword s CODEWORD_IDLE slot)^[n]
        (put_codeword pocsagRxInit (encode_address ric f) slot)).rx_msg_valid =
      false := by
  have hok := encode_address_debug_ok ric f hric hf
  have hlt := encode_address_lt ric f hric hf
  have hbit31 : encode_address ric f &&& 0x80000000 = 0 := and_two_pow_31_eq_zero hlt
  have hs1 : put_codeword pocsagRxInit (encode_address ric f) slot =
      { pocsagRxInit with
        rx_msg_valid := true,
        rx_msg_ric := decode_address_ric (encode_address ric f) slot,
        rx_msg_function := decode_address_function (encode_address ric f),
        rx_msg_data := [],
        rx_msg_bit_index := 0 } := by
    rw [put_codeword]
    rw [if_neg (by rintro ⟨h, _⟩; omega)]
    rw [if_neg (by simp [hok])]
    rw [if_neg hni, if_pos hbit31]
    rfl
  set s1 := put_codeword pocsagRxInit (encode_address ric f) slot with hs1def
  have hpage : decode_address_ric (encode_address ric f) slot =
      ((8 * (ric >>> 3) : ℕ) : ℤ) + slot := by
    rw [decode_address_ric, encode_address_ric_field ric f hric hf]
  have hfn : decode_address_function (encode_address ric f) = f :=
    encode_address_function_field ric f hric hf
  have hs2 : put_codeword s1 CODEWORD_IDLE slot =
      { s1 with rx_msg_valid := false,
                pages := [(((8 * (ric >>> 3) : ℕ) : ℤ) + slot, f, "")] } := by
    rw [put_codeword]
    rw [if_neg (by rintro ⟨_, h⟩; exact absurd h (by decide))]
    rw [if_neg (by simp [show debug_word_ok CODEWORD_IDLE = true from by decide])]
    rw [if_pos rfl, done_rx_msg, if_neg (by simp [hs1])]
    rw [hs1]
    simp only [pocsagRxInit, hpage, hfn]
    rfl
  obtain ⟨m, rfl⟩ : ∃ m, n = m + 1 := ⟨n - 1, by omega⟩
  have hvfalse : (put_codeword s1 CODEWORD_IDLE slot).rx_msg_valid = false := by
    rw [hs2]
  rw [Function.iterate_succ_apply, put_codeword_idle_iter hvfalse m, hs2]
  refine ⟨by rw [hs1]; rfl, by rw [hs1], rfl, rfl⟩

/-- C9 witness: RIC 1234, function 1, sent in slot 2 (= 1234 & 7), followed
by idle codewords; the single delivered page carries RIC 1234, function 1 and
empty text. -/
theorem receive_address_then_idles_witness :
    ((1234 : ℕ) < 2 ^ 21 ∧ (1 : ℕ) < 4 ∧ (0 : ℤ) ≤ 2 ∧
      encode_address 1234 1 ≠ CODEWORD_IDLE ∧ (1 : ℕ) ≤ 15) ∧
    ((put_codeword pocsagRxInit (encode_address 1234 1) 2).pages = [] ∧
     (put_codeword pocsagRxInit (encode_address 1234 1) 2).rx_msg_valid = true ∧
     ((fun s => put_codeword s CODEWORD_IDLE 2)^[15]
        (put_codeword pocsagRxInit (encode_address 1234 1) 2)).pages =
       [(((8 * (1234 >>> 3) : ℕ) : ℤ) + 2, 1, "")] ∧
     ((fun s => put_codeword s CODEWORD_IDLE 2)^[15]
        (put_codeword pocsagRxInit (encode_address 1234 1) 2)).rx_msg_valid =
       false) :=
  ⟨⟨by norm_num, by norm_num, by norm_num, by decide, by norm_num⟩,
   receive_address_then_idles 1234 1 2 15 (by norm_num) (by norm_num)
     (by norm_num) (by decide) (by norm_num)⟩

end Pocsag
